import Mathlib

/-!
Shallow embedding of the crawl-and-extract pipeline of the Scraper-Tools
repository (two near-identical pipelines:
`1. Scaper Tool Templates/Thin Template (Selenium + Numeric Pager)/scraper.py`
and `ICE Facility Scraper/scraper.py`).  Pure helper functions are embedded
directly; the Selenium renderer and the Python `re` / `urllib.parse`
libraries are external collaborators and appear as explicit oracles
(element lookup functions on a page value, a regex-search oracle, an
absolutizing oracle, and URLs at the parsed-component level, matching
`urlparse`/`parse_qs`/`urlencode`/`urlunparse` round-tripping).
-/

namespace Scraper

/-! ### Whitespace normalization — `_normalize_space` (template scraper.py, lines 76-77)

Python: `re.sub(r"\s+", " ", (s or "").strip())`, i.e. drop leading and
trailing whitespace and collapse every interior whitespace run to one
space.  This equals joining the whitespace-separated tokens of `s` with
single spaces. -/

/-- The maximal runs of non-whitespace characters, in order (`acc` holds
the current run, reversed). -/
def wordsAux : List Char → List Char → List (List Char)
  | [], acc => if acc.isEmpty then [] else [acc.reverse]
  | c :: cs, acc =>
    if c.isWhitespace then
      if acc.isEmpty then wordsAux cs [] else acc.reverse :: wordsAux cs []
    else wordsAux cs (c :: acc)

def words (cs : List Char) : List (List Char) := wordsAux cs []

def joinWords : List (List Char) → List Char
  | [] => []
  | [w] => w
  | w :: ws => w ++ ' ' :: joinWords ws

def normalize_space (s : String) : String := ⟨joinWords (words s.data)⟩

/-! ### Renderer model

`Element` models a Selenium WebElement: its rendered text and its
attributes (`get_attribute` returns `None` for an absent attribute,
modelled by `Option`). -/

structure Element where
  text : String
  attrs : List (String × String)
deriving Repr, DecidableEq

def Element.getAttribute (e : Element) (name : String) : Option String :=
  (e.attrs.find? (fun kv => kv.1 == name)).map (·.2)

/-- A rendered detail page as seen through the driver:
`findElement sel` is Selenium `driver.find_element(By.CSS_SELECTOR, sel)`
(`none` models `NoSuchElementException`), and `body` is the result of
`driver.find_element(By.TAG_NAME, "body")` (`none` models the exception
caught at template scraper.py lines 130-133). -/
structure DetailPage where
  findElement : String → Option Element
  body : Option Element

/-- A rendered listing page: `findElements sel` is
`driver.find_elements(By.CSS_SELECTOR, sel)` (an empty list when nothing
matches). -/
structure ListingPage where
  findElements : String → List Element

/-- Oracle for Python `re.search`: given a pattern and a text, the first
match `m.group(0)`, or `none` when the pattern does not match. -/
def RegexSearch : Type := String → String → Option String

/-! ### ExtractionStrategy — the per-field extractor dicts

In the source a strategy is a single-key dict: `{"css": sel}`,
`{"css_attr": [sel, attr]}` or `{"regex": pattern}` (CONFIG "FIELDS",
template scraper.py lines 56-62). -/

inductive ExtractSpec where
  | css (selector : String)
  | cssAttr (selector attrName : String)
  | regex (pattern : String)
deriving Repr, DecidableEq

/-- The strategy loop of `_extract_with_specs` (template scraper.py,
lines 135-158), parameterized by the body text captured once up front.
- `css`: find the element; on `NoSuchElementException` continue; else
  normalize its text and return it if non-empty.
- `cssAttr`: same, reading the named attribute (`get_attribute(attr) or ""`).
- `regex`: `re.search` the pattern against the captured body text; on a
  match return `_normalize_space(m.group(0))` — note the source returns
  here even when that normalized match is empty. -/
def extract_loop (reSearch : RegexSearch) (page : DetailPage) (text : String) :
    List ExtractSpec → String
  | [] => ""
  | spec :: rest =>
    match spec with
    | .css sel =>
      match page.findElement sel with
      | some el =>
        let val := normalize_space el.text
        if val.isEmpty then extract_loop reSearch page text rest else val
      | none => extract_loop reSearch page text rest
    | .cssAttr sel attr =>
      match page.findElement sel with
      | some el =>
        let val := normalize_space ((el.getAttribute attr).getD "")
        if val.isEmpty then extract_loop reSearch page text rest else val
      | none => extract_loop reSearch page text rest
    | .regex pat =>
      match reSearch pat text with
      | some m => normalize_space m
      | none => extract_loop reSearch page text rest

/-- `_extract_with_specs(driver, specs)` (template scraper.py, lines
128-158): capture the body text (empty on exception), then run the
strategy loop. -/
def extract_with_specs (reSearch : RegexSearch) (page : DetailPage)
    (specs : List ExtractSpec) : String :=
  let text := match page.body with
    | some b => b.text
    | none => ""
  extract_loop reSearch page text specs

/-! ### The specification wording for FieldExtractor, for comparison (claim C1)

"returns the value of the first strategy (in declared order) that yields
a non-empty normalized result": value each strategy would yield on its
own, then the first non-empty one. -/

/-- The normalized value one strategy yields in isolation (empty string
when inapplicable). -/
def stratValue (reSearch : RegexSearch) (page : DetailPage) (text : String) :
    ExtractSpec → String
  | .css sel =>
    match page.findElement sel with
    | some el => normalize_space el.text
    | none => ""
  | .cssAttr sel attr =>
    match page.findElement sel with
    | some el => normalize_space ((el.getAttribute attr).getD "")
    | none => ""
  | .regex pat =>
    match reSearch pat text with
    | some m => normalize_space m
    | none => ""

/-- Modelled from the spec words for C1: the first non-empty value in the
list, or the empty string. -/
def firstNonEmpty (vals : List String) : String :=
  (vals.find? (fun v => !v.isEmpty)).getD ""

/-- The body text `_extract_with_specs` captures (template scraper.py,
lines 129-133). -/
def bodyText (page : DetailPage) : String :=
  match page.body with
  | some b => b.text
  | none => ""

/-! ### DetailScraper — `scrape_detail` (template scraper.py, lines 160-167)

The navigation/wait/delay steps are renderer I/O; the record assembly is
`data[field_name] = _extract_with_specs(driver, spec_list)` for each
configured field, in configured order. -/

structure Row where
  data : List (String × String)
deriving Repr, DecidableEq

/-- Lookup of a field in a record (Python `row.data[name]`, modelled on
the association list). -/
def Row.get (r : Row) (name : String) : Option String :=
  (r.data.find? (fun kv => kv.1 == name)).map (·.2)

def scrape_detail (reSearch : RegexSearch) (page : DetailPage)
    (fields : List (String × List ExtractSpec)) : Row :=
  ⟨fields.map (fun f => (f.1, extract_with_specs reSearch page f.2))⟩

/-! ### LinkCollector — `collect_links` (template scraper.py, lines 119-126)

For each selector, for each matched anchor: read `get_attribute("href")`;
if truthy (present and non-empty), absolutize against the base URL
(`_ensure_absolute`, an oracle for `urljoin`) and add to a set; finally
return `sorted(links)`.  `sorted(set(...))` is modelled as sorting the
deduplicated gathered list. -/

/-- One anchor element contributes `_ensure_absolute(href, base_url)` when
`href = a.get_attribute("href")` is truthy (present and non-empty), and
nothing otherwise. -/
def hrefValue (absolutize : String → String → String) (baseUrl : String)
    (a : Element) : Option String :=
  match a.getAttribute "href" with
  | some href => if href.isEmpty then none else some (absolutize baseUrl href)
  | none => none

def gatherHrefs (absolutize : String → String → String) (page : ListingPage)
    (baseUrl : String) (selectors : List String) : List String :=
  selectors.flatMap (fun sel =>
    (page.findElements sel).filterMap (hrefValue absolutize baseUrl))

def collect_links (absolutize : String → String → String) (page : ListingPage)
    (baseUrl : String) (selectors : List String) : List String :=
  List.insertionSort (· ≤ ·) (gatherHrefs absolutize page baseUrl selectors).dedup

/-! ### Page-URL construction — `_set_page` (template scraper.py, lines 79-87)

`urlparse`/`urlunparse` are modelled at the component level; the parsed
query (`parse_qs`) is an insertion-ordered dict from parameter name to
value list.  `q.pop(param, None)` removes the key; `q[param] = [str(n)]`
replaces in place when present, appends otherwise. -/

structure UrlParts where
  scheme : String
  netloc : String
  path : String
  params : String
  query : List (String × List String)
  fragment : String
deriving Repr, DecidableEq

/-- `q.pop(key, None)`: drop every entry with the given key. -/
def dictPop : List (String × List String) → String → List (String × List String)
  | [], _ => []
  | kv :: q, key => if kv.1 = key then dictPop q key else kv :: dictPop q key

/-- Replace the value of every entry with the given key, in place. -/
def dictReplace : List (String × List String) → String → List String →
    List (String × List String)
  | [], _, _ => []
  | kv :: q, key, val =>
    (if kv.1 = key then (key, val) else kv) :: dictReplace q key val

/-- `q[key] = val`: replace the value in place when the key is present,
append the pair at the end otherwise. -/
def dictSet : List (String × List String) → String → List String →
    List (String × List String)
  | [], key, val => [(key, val)]
  | kv :: q, key, val =>
    if kv.1 = key then (key, val) :: dictReplace q key val
    else kv :: dictSet q key val

/-- `q.get(key)`: the value of the first entry with the given key. -/
def dictLookup : List (String × List String) → String → Option (List String)
  | [], _ => none
  | kv :: q, key => if kv.1 = key then some kv.2 else dictLookup q key

def set_page (url : UrlParts) (param : String) (pageNum : Option Nat) : UrlParts :=
  { url with
    query := match pageNum with
      | none => dictPop url.query param
      | some n => dictSet url.query param [toString n] }

/-- The listing URL built at template scraper.py line 190:
`_set_page(start_url, page_param, None if page_idx == 0 else page_idx)`
(the ICE scraper line 239 is identical with `page` fixed as the param). -/
def listingUrl (startUrl : UrlParts) (param : String) (pageIdx : Nat) : UrlParts :=
  set_page startUrl param (if pageIdx = 0 then none else some pageIdx)

/-! ### CrawlHarness — `scrape_all`
(template scraper.py lines 169-223; ICE scraper.py lines 223-282)

The loop state: the accumulated `rows`, the `seen` set (Python `set`,
modelled as a list used only through membership), plus two ghost traces
recording observable events — `visited`, the detail URLs in the order the
detail scraper is attempted on them, and `fetched`, the listing page
indices in the order `driver.get(list_url)` is issued for them.

The detail scrape (`scrape_detail(driver, link, ...)` inside
`try/except`) is an oracle `scrape : String → Option Row`: `some row`
when it returns a row, `none` when it raises (the `except` branch logs
and continues).  Listing collection (`collect_links` on the rendered
page for index `i`) is an oracle `pages : Nat → List String`. -/

inductive StopReason where
  /-- the `break` on a zero-link page (`if not links: break`) -/
  | exhausted
  /-- the `while page_idx < max_pages` condition failed -/
  | capped
  /-- the `break` after the item limit is reached -/
  | limited
deriving Repr, DecidableEq

structure CrawlState where
  rows : List Row
  seen : List String
  visited : List String
  fetched : List Nat
deriving Repr, DecidableEq

def initState : CrawlState := ⟨[], [], [], []⟩

/-- The guard `limit and len(rows) >= limit` (template line 201/212, ICE
line 260/272): `None` and `0` are falsy, so a missing or zero limit never
stops the run. -/
def limitReached (limit : Option Nat) (count : Nat) : Bool :=
  match limit with
  | none => false
  | some l => if l = 0 then false else decide (l ≤ count)

/-- The inner `for link in links:` loop (template lines 200-210, ICE
lines 259-270): check the limit before each link; skip links already in
`seen`; otherwise add to `seen` *then* attempt the detail scrape,
appending the row on success and only logging on failure. -/
def processLinks (scrape : String → Option Row) (limit : Option Nat) :
    List String → CrawlState → CrawlState
  | [], st => st
  | link :: rest, st =>
    if limitReached limit st.rows.length then st
    else if link ∈ st.seen then processLinks scrape limit rest st
    else
      let st1 : CrawlState :=
        { st with seen := link :: st.seen, visited := st.visited ++ [link] }
      match scrape link with
      | some row => processLinks scrape limit rest { st1 with rows := st1.rows ++ [row] }
      | none => processLinks scrape limit rest st1

/-- The outer `while page_idx < max_pages:` loop.  `fuel` only bounds the
recursion: when it runs out the returned value coincides with the
loop-condition failure, because callers supply `maxPages - pageStart`
fuel and the invariant `maxPages - idx ≤ fuel` holds throughout.  The
returned `Nat` is the final value of `page_idx`. -/
def crawl_loop (pages : Nat → List String) (scrape : String → Option Row)
    (limit : Option Nat) (maxPages : Nat) :
    Nat → Nat → CrawlState → CrawlState × Nat × StopReason
  | 0, idx, st => (st, idx, .capped)
  | fuel + 1, idx, st =>
    if idx < maxPages then
      let st1 : CrawlState := { st with fetched := st.fetched ++ [idx] }
      let links := pages idx
      if links.isEmpty then (st1, idx, .exhausted)
      else
        let st2 := processLinks scrape limit links st1
        if limitReached limit st2.rows.length then (st2, idx, .limited)
        else crawl_loop pages scrape limit maxPages fuel (idx + 1) st2
    else (st, idx, .capped)

def scrape_all (pages : Nat → List String) (scrape : String → Option Row)
    (limit : Option Nat) (pageStart maxPages : Nat) : CrawlState × Nat × StopReason :=
  crawl_loop pages scrape limit maxPages (maxPages - pageStart) pageStart initState

/-- Final crawl state of a run. -/
def runState (pages : Nat → List String) (scrape : String → Option Row)
    (limit : Option Nat) (pageStart maxPages : Nat) : CrawlState :=
  (scrape_all pages scrape limit pageStart maxPages).1

/-- Final page cursor of a run. -/
def runCursor (pages : Nat → List String) (scrape : String → Option Row)
    (limit : Option Nat) (pageStart maxPages : Nat) : Nat :=
  (scrape_all pages scrape limit pageStart maxPages).2.1

/-- Stop reason of a run. -/
def runReason (pages : Nat → List String) (scrape : String → Option Row)
    (limit : Option Nat) (pageStart maxPages : Nat) : StopReason :=
  (scrape_all pages scrape limit pageStart maxPages).2.2

/-! ### Concrete fixtures used by counterexamples and witnesses -/

namespace Fx

/-- A detail page whose `h1` holds `Hello` and whose body text is ` x y `. -/
def page : DetailPage :=
  ⟨fun sel => if sel == "h1" then some ⟨"Hello", []⟩ else none, some ⟨" x y ", []⟩⟩

/-- A regex oracle for a whitespace pattern (named `ws`, standing for
the pattern `\s+`): on the fixture body text ` x y ` its first match is
the single leading space, exactly as `re.search` would report.  All
other patterns do not match. -/
def reSearch : RegexSearch := fun pat text =>
  if pat == "ws" && text == " x y " then some " " else none

/-- A concrete field configuration. -/
def fields : List (String × List ExtractSpec) :=
  [("Title", [.css "h1"]), ("Phone", [.regex "ph"])]

/-- A parsed start URL with one pre-existing query parameter. -/
def url : UrlParts := ⟨"https", "example.com", "/listings", "", [("q", ["x"])], ""⟩

/-- Listing pages: page 0 offers three links, every later page is empty. -/
def pages : Nat → List String := fun i => if i = 0 then ["a", "b", "c"] else []

/-- A detail scraper that always succeeds with an empty record. -/
def scrape : String → Option Row := fun _ => some ⟨[]⟩

/-- Listing pages for the failure-isolation scenario: page 0 offers `x`
then `y`, every later page is empty. -/
def pagesXY : Nat → List String := fun i => if i = 0 then ["x", "y"] else []

/-- A detail scraper that raises on `x` and succeeds on every other URL
with a one-field record naming the URL. -/
def scrapeFail : String → Option Row :=
  fun u => if u == "x" then none else some ⟨[("u", u)]⟩

end Fx

/-! ## Theorems -/

/-! ### FieldExtractor (claim C1) -/

lemma string_empty_isEmpty : ("" : String).isEmpty = true := rfl

lemma firstNonEmpty_cons (v : String) (vs : List String) :
    firstNonEmpty (v :: vs) = if v.isEmpty then firstNonEmpty vs else v := by
  by_cases h : v.isEmpty
  · simp [firstNonEmpty, List.find?_cons_of_neg, h]
  · simp [firstNonEmpty, List.find?_cons_of_pos, h]

lemma extract_loop_first_nonempty (reSearch : RegexSearch) (page : DetailPage)
    (text : String) (specs : List ExtractSpec)
    (hre : ∀ pat m, ExtractSpec.regex pat ∈ specs →
      reSearch pat text = some m → (normalize_space m).isEmpty = false) :
    extract_loop reSearch page text specs =
      firstNonEmpty (specs.map (stratValue reSearch page text)) := by
  induction specs with
  | nil => rfl
  | cons spec rest ih =>
    have hre' : ∀ pat m, ExtractSpec.regex pat ∈ rest →
        reSearch pat text = some m → (normalize_space m).isEmpty = false :=
      fun pat m hmem hs => hre pat m (List.mem_cons_of_mem _ hmem) hs
    cases spec with
    | css sel =>
      cases hfind : page.findElement sel with
      | none =>
        simp [extract_loop, stratValue, hfind, firstNonEmpty_cons,
          string_empty_isEmpty, ih hre']
      | some el =>
        by_cases hv : (normalize_space el.text).isEmpty
        · simp [extract_loop, stratValue, hfind, hv, firstNonEmpty_cons, ih hre']
        · simp [extract_loop, stratValue, hfind, hv, firstNonEmpty_cons]
    | cssAttr sel attr =>
      cases hfind : page.findElement sel with
      | none =>
        simp [extract_loop, stratValue, hfind, firstNonEmpty_cons,
          string_empty_isEmpty, ih hre']
      | some el =>
        by_cases hv : (normalize_space ((el.getAttribute attr).getD "")).isEmpty
        · simp [extract_loop, stratValue, hfind, hv, firstNonEmpty_cons, ih hre']
        · simp [extract_loop, stratValue, hfind, hv, firstNonEmpty_cons]
    | regex pat =>
      cases hs : reSearch pat text with
      | none =>
        simp [extract_loop, stratValue, hs, firstNonEmpty_cons,
          string_empty_isEmpty, ih hre']
      | some m =>
        have hne := hre pat m (List.mem_cons_self _ _) hs
        simp [extract_loop, stratValue, hs, firstNonEmpty_cons, hne]

/-- Claim C1, amended: `extract_with_specs` returns the normalized value
of the first strategy (in declared order) whose own normalized value is
non-empty, and the empty string when no strategy yields one — provided
no regex strategy in the list matches with a match that normalizes to
the empty string (for such a match the source returns that empty string
at once instead of moving to the next strategy). -/
theorem claim_C1 (reSearch : RegexSearch) (page : DetailPage)
    (specs : List ExtractSpec)
    (hre : ∀ pat m, ExtractSpec.regex pat ∈ specs →
      reSearch pat (bodyText page) = some m → (normalize_space m).isEmpty = false) :
    extract_with_specs reSearch page specs =
      firstNonEmpty (specs.map (stratValue reSearch page (bodyText page))) :=
  extract_loop_first_nonempty reSearch page (bodyText page) specs hre

/-- Claim C1 counterexample: with the strategies `[regex ws, css h1]` on
a page whose `h1` normalizes to `Hello`, the first strategy yielding a
non-empty normalized result is the `css h1` one (the regex match `"  "`
normalizes to the empty string), so the claim demands `Hello`; the code
returns `""`. -/
theorem claim_C1_counterexample :
    extract_with_specs Fx.reSearch Fx.page [.regex "ws", .css "h1"] = "" ∧
    firstNonEmpty (([ExtractSpec.regex "ws", ExtractSpec.css "h1"]).map
      (stratValue Fx.reSearch Fx.page (bodyText Fx.page))) = "Hello" ∧
    ("" : String) ≠ "Hello" :=
  ⟨by decide, by decide, by decide⟩

/-- Claim C1 witness: with the single strategy `[css h1]` (no regex
strategy at all) the amended theorem applies and both sides evaluate to
`Hello`. -/
theorem claim_C1_witness :
    extract_with_specs Fx.reSearch Fx.page [.css "h1"] =
      firstNonEmpty (([ExtractSpec.css "h1"]).map
        (stratValue Fx.reSearch Fx.page (bodyText Fx.page))) :=
  claim_C1 Fx.reSearch Fx.page [.css "h1"]
    (fun pat m hmem _ => absurd hmem (by simp))

/-! ### DetailScraper record shape (claim C8) -/

/-- Claim C8: for every configured field list and every rendered detail
page, the record `scrape_detail` produces has exactly the configured
field names as keys, in order, and every configured name looks up to
some string value (strings are the only value type, so never null). -/
theorem claim_C8 (reSearch : RegexSearch) (page : DetailPage)
    (fields : List (String × List ExtractSpec)) :
    (scrape_detail reSearch page fields).data.map Prod.fst = fields.map Prod.fst ∧
    ∀ name, name ∈ fields.map Prod.fst →
      ∃ v : String, (scrape_detail reSearch page fields).get name = some v := by
  constructor
  · simp [scrape_detail]
  · intro name hname
    have hmem : ∃ kv ∈ (scrape_detail reSearch page fields).data, (kv.1 == name) = true := by
      have : name ∈ (scrape_detail reSearch page fields).data.map Prod.fst := by
        simpa [scrape_detail] using hname
      obtain ⟨kv, hkv, hfst⟩ := List.mem_map.mp this
      exact ⟨kv, hkv, by simp [hfst]⟩
    have hsome := List.find?_isSome.mpr hmem
    obtain ⟨kv, hkv⟩ := Option.isSome_iff_exists.mp hsome
    exact ⟨kv.2, by simp [Row.get, hkv]⟩

/-- Claim C8 witness: on the fixture page and fields, the key list is
exactly `[Title, Phone]` and `Title` looks up to some string. -/
theorem claim_C8_witness :
    ∃ v : String, (scrape_detail Fx.reSearch Fx.page Fx.fields).get "Title" = some v :=
  (claim_C8 Fx.reSearch Fx.page Fx.fields).2 "Title" (by decide)

/-! ### LinkCollector (claim C9) -/

lemma hrefValue_eq_some (absolutize : String → String → String) (baseUrl : String)
    (a : Element) (x : String) :
    hrefValue absolutize baseUrl a = some x ↔
      ∃ h, a.getAttribute "href" = some h ∧ h.isEmpty = false ∧
        x = absolutize baseUrl h := by
  cases hattr : a.getAttribute "href" with
  | none => simp [hrefValue, hattr]
  | some href =>
    by_cases he : href.isEmpty
    · simp [hrefValue, hattr, he]
    · have he' : href.isEmpty = false := by simpa using he
      simp only [hrefValue, hattr]
      rw [if_neg he]
      simp only [Option.some.injEq]
      constructor
      · intro hx
        exact ⟨href, rfl, he', hx.symm⟩
      · rintro ⟨h, rfl, -, hx⟩
        exact hx.symm

lemma mem_gatherHrefs (absolutize : String → String → String) (page : ListingPage)
    (baseUrl : String) (selectors : List String) (x : String) :
    x ∈ gatherHrefs absolutize page baseUrl selectors ↔
      ∃ sel ∈ selectors, ∃ a ∈ page.findElements sel, ∃ h,
        a.getAttribute "href" = some h ∧ h.isEmpty = false ∧
        x = absolutize baseUrl h := by
  simp only [gatherHrefs, List.mem_flatMap, List.mem_filterMap, hrefValue_eq_some]

/-- Claim C9: `collect_links` returns a duplicate-free, lexically sorted
(hence deterministic) list, whose members are exactly the absolutized
non-empty href values of the elements matched by any selector — an
element with an absent or empty href contributes nothing, and a URL
matched by several selectors or elements appears exactly once. -/
theorem claim_C9 (absolutize : String → String → String)
    (page : ListingPage) (baseUrl : String) (selectors : List String) :
    (collect_links absolutize page baseUrl selectors).Nodup ∧
    List.Sorted (· ≤ ·) (collect_links absolutize page baseUrl selectors) ∧
    ∀ x, x ∈ collect_links absolutize page baseUrl selectors ↔
      ∃ sel ∈ selectors, ∃ a ∈ page.findElements sel, ∃ h,
        a.getAttribute "href" = some h ∧ h.isEmpty = false ∧
        x = absolutize baseUrl h := by
  refine ⟨?_, ?_, ?_⟩
  · exact (List.perm_insertionSort _ _).nodup_iff.mpr (List.nodup_dedup _)
  · exact List.sorted_insertionSort _ _
  · intro x
    rw [collect_links, (List.perm_insertionSort _ _).mem_iff, List.mem_dedup,
      mem_gatherHrefs]

/-! ### Page-URL construction (claim C3) -/

lemma dictLookup_dictPop_self (q : List (String × List String)) (k : String) :
    dictLookup (dictPop q k) k = none := by
  induction q with
  | nil => rfl
  | cons kv q ih =>
    by_cases h : kv.1 = k
    · simpa [dictPop, h] using ih
    · simpa [dictPop, dictLookup, h] using ih

lemma dictLookup_dictPop_ne (q : List (String × List String)) (k k' : String)
    (h : k' ≠ k) : dictLookup (dictPop q k) k' = dictLookup q k' := by
  induction q with
  | nil => rfl
  | cons kv q ih =>
    by_cases hk : kv.1 = k
    · have hk' : kv.1 ≠ k' := by
        rw [hk]
        exact Ne.symm h
      simpa [dictPop, dictLookup, hk, hk', Ne.symm h] using ih
    · by_cases hk' : kv.1 = k'
      · simp [dictPop, dictLookup, hk, hk', h]
      · simpa [dictPop, dictLookup, hk, hk'] using ih

lemma dictLookup_dictReplace_ne (q : List (String × List String)) (k k' : String)
    (v : List String) (h : k' ≠ k) :
    dictLookup (dictReplace q k v) k' = dictLookup q k' := by
  induction q with
  | nil => rfl
  | cons kv q ih =>
    by_cases hk : kv.1 = k
    · have hk' : kv.1 ≠ k' := by
        rw [hk]
        exact Ne.symm h
      simpa [dictReplace, dictLookup, hk, hk', Ne.symm h] using ih
    · by_cases hk' : kv.1 = k'
      · simp [dictReplace, dictLookup, hk, hk', h]
      · simpa [dictReplace, dictLookup, hk, hk'] using ih

lemma dictLookup_dictSet_self (q : List (String × List String)) (k : String)
    (v : List String) : dictLookup (dictSet q k v) k = some v := by
  induction q with
  | nil => simp [dictSet, dictLookup]
  | cons kv q ih =>
    by_cases h : kv.1 = k
    · simp [dictSet, dictLookup, h]
    · simpa [dictSet, dictLookup, h] using ih

lemma dictLookup_dictSet_ne (q : List (String × List String)) (k k' : String)
    (v : List String) (h : k' ≠ k) :
    dictLookup (dictSet q k v) k' = dictLookup q k' := by
  induction q with
  | nil => simp [dictSet, dictLookup, Ne.symm h]
  | cons kv q ih =>
    by_cases hk : kv.1 = k
    · have hk' : kv.1 ≠ k' := by
        rw [hk]
        exact Ne.symm h
      simp [dictSet, dictLookup, hk, hk', Ne.symm h,
        dictLookup_dictReplace_ne q k k' v h]
    · by_cases hk' : kv.1 = k'
      · simp [dictSet, dictLookup, hk, hk', h]
      · simpa [dictSet, dictLookup, hk, hk', h] using ih

/-- Claim C3, amended: page index 0 — not the configured start index in
general — maps to the base URL with the page parameter removed entirely,
and every non-zero index n (including a non-zero start index) maps to
the base URL with the parameter set to the literal string of n; every
other query parameter and every other URL component is unchanged. -/
theorem claim_C3 (u : UrlParts) (param : String) (idx : Nat) :
    dictLookup (listingUrl u param 0).query param = none ∧
    (idx ≠ 0 → dictLookup (listingUrl u param idx).query param = some [toString idx]) ∧
    (∀ k, k ≠ param → dictLookup (listingUrl u param idx).query k = dictLookup u.query k) ∧
    (listingUrl u param idx).scheme = u.scheme ∧
    (listingUrl u param idx).netloc = u.netloc ∧
    (listingUrl u param idx).path = u.path ∧
    (listingUrl u param idx).params = u.params ∧
    (listingUrl u param idx).fragment = u.fragment := by
  refine ⟨?_, ?_, ?_, rfl, rfl, rfl, rfl, rfl⟩
  · simp [listingUrl, set_page, dictLookup_dictPop_self]
  · intro h
    simp [listingUrl, set_page, h, dictLookup_dictSet_self]
  · intro k hk
    by_cases hidx : idx = 0
    · simp [listingUrl, set_page, hidx, dictLookup_dictPop_ne _ _ _ hk]
    · simp [listingUrl, set_page, hidx, dictLookup_dictSet_ne _ _ _ _ hk]

/-- Claim C3 counterexample: with the configured start page index 1
(`NUMERIC_PAGE_START` is configurable and "some sites start at 1"), the
listing URL for the start index has the page parameter set to the
literal `1`, not removed: the `page_idx == 0` test at template
scraper.py line 190 compares against the constant 0, not against the
configured start index. -/
theorem claim_C3_counterexample :
    dictLookup (listingUrl Fx.url "page" 1).query "page" = some ["1"] ∧
    dictLookup (listingUrl Fx.url "page" 1).query "page" ≠ none :=
  ⟨by decide, by decide⟩

/-- Claim C3 witness: index 3 maps to the parameter value `3`. -/
theorem claim_C3_witness :
    dictLookup (listingUrl Fx.url "page" 3).query "page" = some ["3"] :=
  (claim_C3 Fx.url "page" 3).2.1 (by decide)


/-! ### crawl lemmas -/

lemma limitReached_none (n : Nat) : limitReached none n = false := rfl

lemma limitReached_some_true (L n : Nat) (h1 : L ≠ 0) (h2 : L ≤ n) :
    limitReached (some L) n = true := by
  simp [limitReached, h1, h2]

lemma limitReached_some_false (L n : Nat) (h : n < L) :
    limitReached (some L) n = false := by
  by_cases h0 : L = 0
  · simp [limitReached, h0]
  · simp only [limitReached, h0, if_false]
    simpa using Nat.not_le.mpr h

lemma processLinks_nil (scrape : String → Option Row) (limit : Option Nat)
    (st : CrawlState) : processLinks scrape limit [] st = st := rfl

lemma processLinks_cons_stop (scrape : String → Option Row) (limit : Option Nat)
    (link : String) (rest : List String) (st : CrawlState)
    (hlim : limitReached limit st.rows.length = true) :
    processLinks scrape limit (link :: rest) st = st := by
  simp [processLinks, hlim]

lemma processLinks_cons_seen (scrape : String → Option Row) (limit : Option Nat)
    (link : String) (rest : List String) (st : CrawlState)
    (hlim : limitReached limit st.rows.length = false) (hmem : link ∈ st.seen) :
    processLinks scrape limit (link :: rest) st =
      processLinks scrape limit rest st := by
  simp [processLinks, hlim, hmem]

lemma processLinks_cons_some (scrape : String → Option Row) (limit : Option Nat)
    (link : String) (rest : List String) (st : CrawlState) (row : Row)
    (hlim : limitReached limit st.rows.length = false) (hmem : link ∉ st.seen)
    (hscr : scrape link = some row) :
    processLinks scrape limit (link :: rest) st =
      processLinks scrape limit rest
        ⟨st.rows ++ [row], link :: st.seen, st.visited ++ [link], st.fetched⟩ := by
  simp [processLinks, hlim, hmem, hscr]

lemma processLinks_cons_none (scrape : String → Option Row) (limit : Option Nat)
    (link : String) (rest : List String) (st : CrawlState)
    (hlim : limitReached limit st.rows.length = false) (hmem : link ∉ st.seen)
    (hscr : scrape link = none) :
    processLinks scrape limit (link :: rest) st =
      processLinks scrape limit rest
        ⟨st.rows, link :: st.seen, st.visited ++ [link], st.fetched⟩ := by
  simp [processLinks, hlim, hmem, hscr]


lemma processLinks_fetched (scrape : String → Option Row) (limit : Option Nat)
    (links : List String) (st : CrawlState) :
    (processLinks scrape limit links st).fetched = st.fetched := by
  induction links generalizing st with
  | nil => rfl
  | cons link rest ih =>
    cases hlim : limitReached limit st.rows.length with
    | true => rw [processLinks_cons_stop _ _ _ _ _ hlim]
    | false =>
      by_cases hmem : link ∈ st.seen
      · rw [processLinks_cons_seen _ _ _ _ _ hlim hmem]
        exact ih st
      · cases hscr : scrape link with
        | some row =>
          rw [processLinks_cons_some _ _ _ _ _ _ hlim hmem hscr]
          exact ih _
        | none =>
          rw [processLinks_cons_none _ _ _ _ _ hlim hmem hscr]
          exact ih _

lemma processLinks_seen_mono (scrape : String → Option Row) (limit : Option Nat)
    (links : List String) (st : CrawlState) :
    ∀ u ∈ st.seen, u ∈ (processLinks scrape limit links st).seen := by
  induction links generalizing st with
  | nil => exact fun u hu => hu
  | cons link rest ih =>
    intro u hu
    cases hlim : limitReached limit st.rows.length with
    | true =>
      rw [processLinks_cons_stop _ _ _ _ _ hlim]
      exact hu
    | false =>
      by_cases hmem : link ∈ st.seen
      · rw [processLinks_cons_seen _ _ _ _ _ hlim hmem]
        exact ih st u hu
      · cases hscr : scrape link with
        | some row =>
          rw [processLinks_cons_some _ _ _ _ _ _ hlim hmem hscr]
          exact ih _ u (List.mem_cons_of_mem _ hu)
        | none =>
          rw [processLinks_cons_none _ _ _ _ _ hlim hmem hscr]
          exact ih _ u (List.mem_cons_of_mem _ hu)

lemma processLinks_rows_append (scrape : String → Option Row) (limit : Option Nat)
    (links : List String) (st : CrawlState) :
    ∃ d, (processLinks scrape limit links st).rows = st.rows ++ d := by
  induction links generalizing st with
  | nil => exact ⟨[], by simp [processLinks_nil]⟩
  | cons link rest ih =>
    cases hlim : limitReached limit st.rows.length with
    | true =>
      rw [processLinks_cons_stop _ _ _ _ _ hlim]
      exact ⟨[], by simp⟩
    | false =>
      by_cases hmem : link ∈ st.seen
      · rw [processLinks_cons_seen _ _ _ _ _ hlim hmem]
        exact ih st
      · cases hscr : scrape link with
        | some row =>
          rw [processLinks_cons_some _ _ _ _ _ _ hlim hmem hscr]
          obtain ⟨d, hd⟩ := ih ⟨st.rows ++ [row], link :: st.seen, st.visited ++ [link], st.fetched⟩
          exact ⟨[row] ++ d, by simpa using hd⟩
        | none =>
          rw [processLinks_cons_none _ _ _ _ _ hlim hmem hscr]
          exact ih _

lemma processLinks_visited_append (scrape : String → Option Row) (limit : Option Nat)
    (links : List String) (st : CrawlState) :
    ∃ d, (processLinks scrape limit links st).visited = st.visited ++ d := by
  induction links generalizing st with
  | nil => exact ⟨[], by simp [processLinks_nil]⟩
  | cons link rest ih =>
    cases hlim : limitReached limit st.rows.length with
    | true =>
      rw [processLinks_cons_stop _ _ _ _ _ hlim]
      exact ⟨[], by simp⟩
    | false =>
      by_cases hmem : link ∈ st.seen
      · rw [processLinks_cons_seen _ _ _ _ _ hlim hmem]
        exact ih st
      · cases hscr : scrape link with
        | some row =>
          rw [processLinks_cons_some _ _ _ _ _ _ hlim hmem hscr]
          obtain ⟨d, hd⟩ := ih ⟨st.rows ++ [row], link :: st.seen, st.visited ++ [link], st.fetched⟩
          exact ⟨[link] ++ d, by simpa using hd⟩
        | none =>
          rw [processLinks_cons_none _ _ _ _ _ hlim hmem hscr]
          obtain ⟨d, hd⟩ := ih ⟨st.rows, link :: st.seen, st.visited ++ [link], st.fetched⟩
          exact ⟨[link] ++ d, by simpa using hd⟩

lemma processLinks_sync (scrape : String → Option Row) (limit : Option Nat)
    (links : List String) (st : CrawlState)
    (h : st.rows = st.visited.filterMap scrape) :
    (processLinks scrape limit links st).rows =
      (processLinks scrape limit links st).visited.filterMap scrape := by
  induction links generalizing st with
  | nil => exact h
  | cons link rest ih =>
    cases hlim : limitReached limit st.rows.length with
    | true =>
      rw [processLinks_cons_stop _ _ _ _ _ hlim]
      exact h
    | false =>
      by_cases hmem : link ∈ st.seen
      · rw [processLinks_cons_seen _ _ _ _ _ hlim hmem]
        exact ih st h
      · cases hscr : scrape link with
        | some row =>
          rw [processLinks_cons_some _ _ _ _ _ _ hlim hmem hscr]
          exact ih _ (by simp [List.filterMap_append, hscr, h])
        | none =>
          rw [processLinks_cons_none _ _ _ _ _ hlim hmem hscr]
          exact ih _ (by simp [List.filterMap_append, hscr, h])

lemma processLinks_nodup (scrape : String → Option Row) (limit : Option Nat)
    (links : List String) (st : CrawlState)
    (h1 : st.visited.Nodup) (h2 : ∀ u ∈ st.visited, u ∈ st.seen) :
    (processLinks scrape limit links st).visited.Nodup ∧
    ∀ u ∈ (processLinks scrape limit links st).visited,
      u ∈ (processLinks scrape limit links st).seen := by
  induction links generalizing st with
  | nil => exact ⟨h1, h2⟩
  | cons link rest ih =>
    cases hlim : limitReached limit st.rows.length with
    | true =>
      rw [processLinks_cons_stop _ _ _ _ _ hlim]
      exact ⟨h1, h2⟩
    | false =>
      by_cases hmem : link ∈ st.seen
      · rw [processLinks_cons_seen _ _ _ _ _ hlim hmem]
        exact ih st h1 h2
      · have hnv : link ∉ st.visited := fun hv => hmem (h2 link hv)
        have h1n : (st.visited ++ [link]).Nodup := by
          simp [List.nodup_append, h1, hnv]
        have h2n : ∀ u ∈ st.visited ++ [link], u ∈ link :: st.seen := by
          intro u hu
          rcases List.mem_append.mp hu with hu | hu
          · exact List.mem_cons_of_mem _ (h2 u hu)
          · simp only [List.mem_singleton] at hu
            simp [hu]
        cases hscr : scrape link with
        | some row =>
          rw [processLinks_cons_some _ _ _ _ _ _ hlim hmem hscr]
          exact ih _ h1n h2n
        | none =>
          rw [processLinks_cons_none _ _ _ _ _ hlim hmem hscr]
          exact ih _ h1n h2n

lemma processLinks_delta (scrape : String → Option Row) (limit : Option Nat)
    (links : List String) (st : CrawlState)
    (hall : ∀ u, (scrape u).isSome) :
    (processLinks scrape limit links st).rows.length + st.visited.length =
      (processLinks scrape limit links st).visited.length + st.rows.length := by
  induction links generalizing st with
  | nil =>
    rw [processLinks_nil]
    omega
  | cons link rest ih =>
    cases hlim : limitReached limit st.rows.length with
    | true =>
      rw [processLinks_cons_stop _ _ _ _ _ hlim]
      omega
    | false =>
      by_cases hmem : link ∈ st.seen
      · rw [processLinks_cons_seen _ _ _ _ _ hlim hmem]
        exact ih st
      · cases hscr : scrape link with
        | some row =>
          rw [processLinks_cons_some _ _ _ _ _ _ hlim hmem hscr]
          have h := ih ⟨st.rows ++ [row], link :: st.seen, st.visited ++ [link], st.fetched⟩
          simp only [List.length_append, List.length_singleton] at h
          omega
        | none =>
          exact absurd (hall link) (by simp [hscr])


lemma processLinks_stop (scrape : String → Option Row) (limit : Option Nat)
    (links : List String) (st : CrawlState)
    (hlim : limitReached limit st.rows.length = true) :
    processLinks scrape limit links st = st := by
  cases links with
  | nil => rfl
  | cons link rest => exact processLinks_cons_stop _ _ _ _ _ hlim

lemma processLinks_id_of_rows_eq (scrape : String → Option Row)
    (links : List String) (st : CrawlState)
    (hall : ∀ u, (scrape u).isSome)
    (h : (processLinks scrape none links st).rows.length = st.rows.length) :
    processLinks scrape none links st = st := by
  induction links generalizing st with
  | nil => rfl
  | cons link rest ih =>
    have hlimN : limitReached none st.rows.length = false := rfl
    by_cases hmem : link ∈ st.seen
    · rw [processLinks_cons_seen _ _ _ _ _ hlimN hmem] at h ⊢
      exact ih st h
    · cases hscr : scrape link with
      | none => exact absurd (hall link) (by simp [hscr])
      | some row =>
        rw [processLinks_cons_some _ _ _ _ _ _ hlimN hmem hscr] at h
        obtain ⟨d, hd⟩ := processLinks_rows_append scrape none rest
          ⟨st.rows ++ [row], link :: st.seen, st.visited ++ [link], st.fetched⟩
        rw [hd] at h
        simp at h

lemma processLinks_sim (scrape : String → Option Row) (L : Nat)
    (links : List String) (st : CrawlState)
    (hall : ∀ u, (scrape u).isSome) (h0 : st.rows.length < L) :
    ((processLinks scrape none links st).rows.length ≤ L →
      processLinks scrape (some L) links st = processLinks scrape none links st) ∧
    (L < (processLinks scrape none links st).rows.length →
      (processLinks scrape (some L) links st).rows.length = L) := by
  induction links generalizing st with
  | nil =>
    constructor
    · intro _
      rfl
    · intro h
      rw [processLinks_nil] at h
      omega
  | cons link rest ih =>
    have hL0 : L ≠ 0 := by omega
    have hlimF : limitReached (some L) st.rows.length = false :=
      limitReached_some_false _ _ h0
    have hlimN : limitReached none st.rows.length = false := rfl
    by_cases hmem : link ∈ st.seen
    · rw [processLinks_cons_seen _ _ _ _ _ hlimF hmem,
        processLinks_cons_seen _ _ _ _ _ hlimN hmem]
      exact ih st h0
    · cases hscr : scrape link with
      | none => exact absurd (hall link) (by simp [hscr])
      | some row =>
        rw [processLinks_cons_some _ _ _ _ _ _ hlimF hmem hscr,
          processLinks_cons_some _ _ _ _ _ _ hlimN hmem hscr]
        by_cases hlt : st.rows.length + 1 < L
        · exact ih ⟨st.rows ++ [row], link :: st.seen, st.visited ++ [link], st.fetched⟩
            (by simpa using hlt)
        · have heq : st.rows.length + 1 = L := by omega
          have hstop : processLinks scrape (some L) rest
              ⟨st.rows ++ [row], link :: st.seen, st.visited ++ [link], st.fetched⟩ =
              ⟨st.rows ++ [row], link :: st.seen, st.visited ++ [link], st.fetched⟩ :=
            processLinks_stop _ _ _ _
              (limitReached_some_true _ _ hL0 (by simp [heq]))
          constructor
          · intro hle
            obtain ⟨d, hd⟩ := processLinks_rows_append scrape none rest
              ⟨st.rows ++ [row], link :: st.seen, st.visited ++ [link], st.fetched⟩
            have hlen2 : ((st.rows ++ [row]) ++ d).length ≤ L := by
              rw [← hd]
              exact hle
            have hd0 : d.length = 0 := by
              simp only [List.length_append, List.length_singleton] at hlen2
              omega
            have hdeq : d = [] := List.length_eq_zero.mp hd0
            have hdl : (processLinks scrape none rest
                ⟨st.rows ++ [row], link :: st.seen, st.visited ++ [link],
                  st.fetched⟩).rows.length =
                st.rows.length + 1 := by
              rw [hd, hdeq]
              simp
            rw [processLinks_id_of_rows_eq scrape rest _ hall (by simpa using hdl), hstop]
          · intro hgt
            rw [hstop]
            simpa using heq


lemma crawl_loop_zero (pages : Nat → List String) (scrape : String → Option Row)
    (limit : Option Nat) (maxPages idx : Nat) (st : CrawlState) :
    crawl_loop pages scrape limit maxPages 0 idx st = (st, idx, .capped) := rfl

lemma crawl_loop_succ_stop (pages : Nat → List String) (scrape : String → Option Row)
    (limit : Option Nat) (maxPages fuel idx : Nat) (st : CrawlState)
    (hidx : ¬ idx < maxPages) :
    crawl_loop pages scrape limit maxPages (fuel + 1) idx st = (st, idx, .capped) := by
  simp [crawl_loop, hidx]

lemma crawl_loop_succ_empty (pages : Nat → List String) (scrape : String → Option Row)
    (limit : Option Nat) (maxPages fuel idx : Nat) (st : CrawlState)
    (hidx : idx < maxPages) (hemp : (pages idx).isEmpty = true) :
    crawl_loop pages scrape limit maxPages (fuel + 1) idx st =
      (⟨st.rows, st.seen, st.visited, st.fetched ++ [idx]⟩, idx, .exhausted) := by
  simp [crawl_loop, hidx, hemp]

lemma crawl_loop_succ_limited (pages : Nat → List String) (scrape : String → Option Row)
    (limit : Option Nat) (maxPages fuel idx : Nat) (st : CrawlState)
    (hidx : idx < maxPages) (hemp : (pages idx).isEmpty = false)
    (hlim : limitReached limit (processLinks scrape limit (pages idx)
      ⟨st.rows, st.seen, st.visited, st.fetched ++ [idx]⟩).rows.length = true) :
    crawl_loop pages scrape limit maxPages (fuel + 1) idx st =
      (processLinks scrape limit (pages idx)
        ⟨st.rows, st.seen, st.visited, st.fetched ++ [idx]⟩, idx, .limited) := by
  simp [crawl_loop, hidx, hemp, hlim]

lemma crawl_loop_succ_step (pages : Nat → List String) (scrape : String → Option Row)
    (limit : Option Nat) (maxPages fuel idx : Nat) (st : CrawlState)
    (hidx : idx < maxPages) (hemp : (pages idx).isEmpty = false)
    (hlim : limitReached limit (processLinks scrape limit (pages idx)
      ⟨st.rows, st.seen, st.visited, st.fetched ++ [idx]⟩).rows.length = false) :
    crawl_loop pages scrape limit maxPages (fuel + 1) idx st =
      crawl_loop pages scrape limit maxPages fuel (idx + 1)
        (processLinks scrape limit (pages idx)
          ⟨st.rows, st.seen, st.visited, st.fetched ++ [idx]⟩) := by
  simp [crawl_loop, hidx, hemp, hlim]


lemma crawl_sync (pages : Nat → List String) (scrape : String → Option Row)
    (limit : Option Nat) (maxPages : Nat) (fuel idx : Nat) (st : CrawlState)
    (h : st.rows = st.visited.filterMap scrape) :
    (crawl_loop pages scrape limit maxPages fuel idx st).1.rows =
      (crawl_loop pages scrape limit maxPages fuel idx st).1.visited.filterMap scrape := by
  induction fuel generalizing idx st with
  | zero =>
    rw [crawl_loop_zero]
    exact h
  | succ fuel ih =>
    by_cases hidx : idx < maxPages
    · cases hemp : (pages idx).isEmpty with
      | true =>
        rw [crawl_loop_succ_empty _ _ _ _ _ _ _ hidx hemp]
        exact h
      | false =>
        cases hlim : limitReached limit (processLinks scrape limit (pages idx)
            ⟨st.rows, st.seen, st.visited, st.fetched ++ [idx]⟩).rows.length with
        | true =>
          rw [crawl_loop_succ_limited _ _ _ _ _ _ _ hidx hemp hlim]
          exact processLinks_sync _ _ _ _ h
        | false =>
          rw [crawl_loop_succ_step _ _ _ _ _ _ _ hidx hemp hlim]
          exact ih _ _ (processLinks_sync _ _ _ _ h)
    · rw [crawl_loop_succ_stop _ _ _ _ _ _ _ hidx]
      exact h

lemma crawl_nodup (pages : Nat → List String) (scrape : String → Option Row)
    (limit : Option Nat) (maxPages : Nat) (fuel idx : Nat) (st : CrawlState)
    (h1 : st.visited.Nodup) (h2 : ∀ u ∈ st.visited, u ∈ st.seen) :
    (crawl_loop pages scrape limit maxPages fuel idx st).1.visited.Nodup ∧
    ∀ u ∈ (crawl_loop pages scrape limit maxPages fuel idx st).1.visited,
      u ∈ (crawl_loop pages scrape limit maxPages fuel idx st).1.seen := by
  induction fuel generalizing idx st with
  | zero =>
    rw [crawl_loop_zero]
    exact ⟨h1, h2⟩
  | succ fuel ih =>
    by_cases hidx : idx < maxPages
    · cases hemp : (pages idx).isEmpty with
      | true =>
        rw [crawl_loop_succ_empty _ _ _ _ _ _ _ hidx hemp]
        exact ⟨h1, h2⟩
      | false =>
        cases hlim : limitReached limit (processLinks scrape limit (pages idx)
            ⟨st.rows, st.seen, st.visited, st.fetched ++ [idx]⟩).rows.length with
        | true =>
          rw [crawl_loop_succ_limited _ _ _ _ _ _ _ hidx hemp hlim]
          exact processLinks_nodup _ _ _ _ h1 h2
        | false =>
          rw [crawl_loop_succ_step _ _ _ _ _ _ _ hidx hemp hlim]
          obtain ⟨h1n, h2n⟩ := processLinks_nodup scrape limit (pages idx)
            ⟨st.rows, st.seen, st.visited, st.fetched ++ [idx]⟩ h1 h2
          exact ih _ _ h1n h2n
    · rw [crawl_loop_succ_stop _ _ _ _ _ _ _ hidx]
      exact ⟨h1, h2⟩

lemma crawl_rows_append (pages : Nat → List String) (scrape : String → Option Row)
    (limit : Option Nat) (maxPages : Nat) (fuel idx : Nat) (st : CrawlState) :
    ∃ d, (crawl_loop pages scrape limit maxPages fuel idx st).1.rows = st.rows ++ d := by
  induction fuel generalizing idx st with
  | zero =>
    rw [crawl_loop_zero]
    exact ⟨[], by simp⟩
  | succ fuel ih =>
    by_cases hidx : idx < maxPages
    · cases hemp : (pages idx).isEmpty with
      | true =>
        rw [crawl_loop_succ_empty _ _ _ _ _ _ _ hidx hemp]
        exact ⟨[], by simp⟩
      | false =>
        cases hlim : limitReached limit (processLinks scrape limit (pages idx)
            ⟨st.rows, st.seen, st.visited, st.fetched ++ [idx]⟩).rows.length with
        | true =>
          rw [crawl_loop_succ_limited _ _ _ _ _ _ _ hidx hemp hlim]
          simpa using processLinks_rows_append scrape limit (pages idx)
            ⟨st.rows, st.seen, st.visited, st.fetched ++ [idx]⟩
        | false =>
          rw [crawl_loop_succ_step _ _ _ _ _ _ _ hidx hemp hlim]
          obtain ⟨d1, hd1⟩ := processLinks_rows_append scrape limit (pages idx)
            ⟨st.rows, st.seen, st.visited, st.fetched ++ [idx]⟩
          obtain ⟨d2, hd2⟩ := ih (idx + 1) (processLinks scrape limit (pages idx)
            ⟨st.rows, st.seen, st.visited, st.fetched ++ [idx]⟩)
          refine ⟨d1 ++ d2, ?_⟩
          rw [hd2, hd1]
          simp
    · rw [crawl_loop_succ_stop _ _ _ _ _ _ _ hidx]
      exact ⟨[], by simp⟩

lemma crawl_visited_append (pages : Nat → List String) (scrape : String → Option Row)
    (limit : Option Nat) (maxPages : Nat) (fuel idx : Nat) (st : CrawlState) :
    ∃ d, (crawl_loop pages scrape limit maxPages fuel idx st).1.visited =
      st.visited ++ d := by
  induction fuel generalizing idx st with
  | zero =>
    rw [crawl_loop_zero]
    exact ⟨[], by simp⟩
  | succ fuel ih =>
    by_cases hidx : idx < maxPages
    · cases hemp : (pages idx).isEmpty with
      | true =>
        rw [crawl_loop_succ_empty _ _ _ _ _ _ _ hidx hemp]
        exact ⟨[], by simp⟩
      | false =>
        cases hlim : limitReached limit (processLinks scrape limit (pages idx)
            ⟨st.rows, st.seen, st.visited, st.fetched ++ [idx]⟩).rows.length with
        | true =>
          rw [crawl_loop_succ_limited _ _ _ _ _ _ _ hidx hemp hlim]
          simpa using processLinks_visited_append scrape limit (pages idx)
            ⟨st.rows, st.seen, st.visited, st.fetched ++ [idx]⟩
        | false =>
          rw [crawl_loop_succ_step _ _ _ _ _ _ _ hidx hemp hlim]
          obtain ⟨d1, hd1⟩ := processLinks_visited_append scrape limit (pages idx)
            ⟨st.rows, st.seen, st.visited, st.fetched ++ [idx]⟩
          obtain ⟨d2, hd2⟩ := ih (idx + 1) (processLinks scrape limit (pages idx)
            ⟨st.rows, st.seen, st.visited, st.fetched ++ [idx]⟩)
          refine ⟨d1 ++ d2, ?_⟩
          rw [hd2, hd1]
          simp
    · rw [crawl_loop_succ_stop _ _ _ _ _ _ _ hidx]
      exact ⟨[], by simp⟩

lemma crawl_delta (pages : Nat → List String) (scrape : String → Option Row)
    (limit : Option Nat) (maxPages : Nat) (fuel idx : Nat) (st : CrawlState)
    (hall : ∀ u, (scrape u).isSome) :
    (crawl_loop pages scrape limit maxPages fuel idx st).1.rows.length + st.visited.length =
      (crawl_loop pages scrape limit maxPages fuel idx st).1.visited.length +
        st.rows.length := by
  induction fuel generalizing idx st with
  | zero =>
    rw [crawl_loop_zero]
    dsimp only
    omega
  | succ fuel ih =>
    by_cases hidx : idx < maxPages
    · cases hemp : (pages idx).isEmpty with
      | true =>
        rw [crawl_loop_succ_empty _ _ _ _ _ _ _ hidx hemp]
        dsimp only
        omega
      | false =>
        cases hlim : limitReached limit (processLinks scrape limit (pages idx)
            ⟨st.rows, st.seen, st.visited, st.fetched ++ [idx]⟩).rows.length with
        | true =>
          rw [crawl_loop_succ_limited _ _ _ _ _ _ _ hidx hemp hlim]
          have hp := processLinks_delta scrape limit (pages idx)
            ⟨st.rows, st.seen, st.visited, st.fetched ++ [idx]⟩ hall
          dsimp only at hp ⊢
          omega
        | false =>
          rw [crawl_loop_succ_step _ _ _ _ _ _ _ hidx hemp hlim]
          have hp := processLinks_delta scrape limit (pages idx)
            ⟨st.rows, st.seen, st.visited, st.fetched ++ [idx]⟩ hall
          have hc := ih (idx + 1) (processLinks scrape limit (pages idx)
            ⟨st.rows, st.seen, st.visited, st.fetched ++ [idx]⟩)
          dsimp only at hp hc ⊢
          omega
    · rw [crawl_loop_succ_stop _ _ _ _ _ _ _ hidx]
      dsimp only
      omega


lemma crawl_fetched_range (pages : Nat → List String) (scrape : String → Option Row)
    (limit : Option Nat) (maxPages : Nat) (fuel idx : Nat) (st : CrawlState) :
    ∃ n, (crawl_loop pages scrape limit maxPages fuel idx st).1.fetched =
      st.fetched ++ List.range' idx n ∧ (n = 0 ∨ idx + n ≤ maxPages) := by
  induction fuel generalizing idx st with
  | zero =>
    rw [crawl_loop_zero]
    exact ⟨0, by simp, Or.inl rfl⟩
  | succ fuel ih =>
    by_cases hidx : idx < maxPages
    · cases hemp : (pages idx).isEmpty with
      | true =>
        rw [crawl_loop_succ_empty _ _ _ _ _ _ _ hidx hemp]
        exact ⟨1, by simp [List.range'_one], by omega⟩
      | false =>
        cases hlim : limitReached limit (processLinks scrape limit (pages idx)
            ⟨st.rows, st.seen, st.visited, st.fetched ++ [idx]⟩).rows.length with
        | true =>
          rw [crawl_loop_succ_limited _ _ _ _ _ _ _ hidx hemp hlim]
          refine ⟨1, ?_, by omega⟩
          rw [processLinks_fetched]
          simp [List.range'_one]
        | false =>
          rw [crawl_loop_succ_step _ _ _ _ _ _ _ hidx hemp hlim]
          obtain ⟨n, hn, hb⟩ := ih (idx + 1) (processLinks scrape limit (pages idx)
            ⟨st.rows, st.seen, st.visited, st.fetched ++ [idx]⟩)
          refine ⟨n + 1, ?_, by omega⟩
          rw [hn, processLinks_fetched]
          dsimp only
          rw [List.range'_succ]
          simp
    · rw [crawl_loop_succ_stop _ _ _ _ _ _ _ hidx]
      exact ⟨0, by simp, Or.inl rfl⟩

lemma crawl_cursor_ge (pages : Nat → List String) (scrape : String → Option Row)
    (limit : Option Nat) (maxPages : Nat) (fuel idx : Nat) (st : CrawlState) :
    idx ≤ (crawl_loop pages scrape limit maxPages fuel idx st).2.1 := by
  induction fuel generalizing idx st with
  | zero =>
    rw [crawl_loop_zero]
  | succ fuel ih =>
    by_cases hidx : idx < maxPages
    · cases hemp : (pages idx).isEmpty with
      | true =>
        rw [crawl_loop_succ_empty _ _ _ _ _ _ _ hidx hemp]
      | false =>
        cases hlim : limitReached limit (processLinks scrape limit (pages idx)
            ⟨st.rows, st.seen, st.visited, st.fetched ++ [idx]⟩).rows.length with
        | true =>
          rw [crawl_loop_succ_limited _ _ _ _ _ _ _ hidx hemp hlim]
        | false =>
          rw [crawl_loop_succ_step _ _ _ _ _ _ _ hidx hemp hlim]
          exact Nat.le_of_succ_le (ih (idx + 1) _)
    · rw [crawl_loop_succ_stop _ _ _ _ _ _ _ hidx]

lemma crawl_cursor_le (pages : Nat → List String) (scrape : String → Option Row)
    (limit : Option Nat) (maxPages : Nat) (fuel idx : Nat) (st : CrawlState)
    (h : idx ≤ maxPages) :
    (crawl_loop pages scrape limit maxPages fuel idx st).2.1 ≤ maxPages := by
  induction fuel generalizing idx st with
  | zero =>
    rw [crawl_loop_zero]
    exact h
  | succ fuel ih =>
    by_cases hidx : idx < maxPages
    · cases hemp : (pages idx).isEmpty with
      | true =>
        rw [crawl_loop_succ_empty _ _ _ _ _ _ _ hidx hemp]
        exact h
      | false =>
        cases hlim : limitReached limit (processLinks scrape limit (pages idx)
            ⟨st.rows, st.seen, st.visited, st.fetched ++ [idx]⟩).rows.length with
        | true =>
          rw [crawl_loop_succ_limited _ _ _ _ _ _ _ hidx hemp hlim]
          exact h
        | false =>
          rw [crawl_loop_succ_step _ _ _ _ _ _ _ hidx hemp hlim]
          exact ih (idx + 1) _ hidx
    · rw [crawl_loop_succ_stop _ _ _ _ _ _ _ hidx]
      exact h

lemma crawl_empty_stop (pages : Nat → List String) (scrape : String → Option Row)
    (limit : Option Nat) (maxPages : Nat) (fuel idx : Nat) (st : CrawlState)
    (p : Nat) (hp : pages p = []) (hnotin : p ∉ st.fetched)
    (hin : p ∈ (crawl_loop pages scrape limit maxPages fuel idx st).1.fetched) :
    (crawl_loop pages scrape limit maxPages fuel idx st).2.2 = .exhausted ∧
    ∀ q ∈ (crawl_loop pages scrape limit maxPages fuel idx st).1.fetched,
      q ∉ st.fetched → q ≤ p := by
  induction fuel generalizing idx st with
  | zero =>
    rw [crawl_loop_zero] at hin ⊢
    exact absurd hin hnotin
  | succ fuel ih =>
    by_cases hidx : idx < maxPages
    · cases hemp : (pages idx).isEmpty with
      | true =>
        rw [crawl_loop_succ_empty _ _ _ _ _ _ _ hidx hemp] at hin ⊢
        dsimp only at hin ⊢
        refine ⟨rfl, ?_⟩
        intro q hq hqn
        rcases List.mem_append.mp hq with hq | hq
        · exact absurd hq hqn
        · simp only [List.mem_singleton] at hq
          rcases List.mem_append.mp hin with hi | hi
          · exact absurd hi hnotin
          · simp only [List.mem_singleton] at hi
            omega
      | false =>
        have hpidx : p ≠ idx := by
          intro hh
          rw [hh] at hp
          rw [hp] at hemp
          simp at hemp
        cases hlim : limitReached limit (processLinks scrape limit (pages idx)
            ⟨st.rows, st.seen, st.visited, st.fetched ++ [idx]⟩).rows.length with
        | true =>
          rw [crawl_loop_succ_limited _ _ _ _ _ _ _ hidx hemp hlim] at hin ⊢
          dsimp only at hin ⊢
          rw [processLinks_fetched] at hin
          dsimp only at hin
          rcases List.mem_append.mp hin with hi | hi
          · exact absurd hi hnotin
          · simp only [List.mem_singleton] at hi
            exact absurd hi hpidx
        | false =>
          rw [crawl_loop_succ_step _ _ _ _ _ _ _ hidx hemp hlim] at hin ⊢
          have hfet : (processLinks scrape limit (pages idx)
              ⟨st.rows, st.seen, st.visited, st.fetched ++ [idx]⟩).fetched =
              st.fetched ++ [idx] := by
            rw [processLinks_fetched]
          have hnotin2 : p ∉ (processLinks scrape limit (pages idx)
              ⟨st.rows, st.seen, st.visited, st.fetched ++ [idx]⟩).fetched := by
            rw [hfet]
            intro hh
            rcases List.mem_append.mp hh with hh | hh
            · exact hnotin hh
            · simp only [List.mem_singleton] at hh
              exact hpidx hh
          obtain ⟨hreason, hbound⟩ := ih (idx + 1) _ hnotin2 hin
          refine ⟨hreason, ?_⟩
          intro q hq hqn
          by_cases hq2 : q ∈ (processLinks scrape limit (pages idx)
              ⟨st.rows, st.seen, st.visited, st.fetched ++ [idx]⟩).fetched
          · rw [hfet] at hq2
            rcases List.mem_append.mp hq2 with hh | hh
            · exact absurd hh hqn
            · simp only [List.mem_singleton] at hh
              obtain ⟨n, hn, -⟩ := crawl_fetched_range pages scrape limit maxPages
                fuel (idx + 1) (processLinks scrape limit (pages idx)
                  ⟨st.rows, st.seen, st.visited, st.fetched ++ [idx]⟩)
              rw [hn] at hin
              rcases List.mem_append.mp hin with hi | hi
              · exact absurd hi hnotin2
              · have := (List.mem_range'_1.mp hi).1
                omega
          · exact hbound q hq hq2
    · rw [crawl_loop_succ_stop _ _ _ _ _ _ _ hidx] at hin ⊢
      exact absurd hin hnotin

lemma crawl_capped (pages : Nat → List String) (scrape : String → Option Row)
    (maxPages : Nat) (fuel idx : Nat) (st : CrawlState)
    (hfuel : maxPages - idx ≤ fuel) (hidxle : idx ≤ maxPages)
    (hne : ∀ p, idx ≤ p → p < maxPages → (pages p).isEmpty = false) :
    (crawl_loop pages scrape none maxPages fuel idx st).2.2 = .capped ∧
    (crawl_loop pages scrape none maxPages fuel idx st).2.1 = maxPages := by
  induction fuel generalizing idx st with
  | zero =>
    rw [crawl_loop_zero]
    have : idx = maxPages := by omega
    exact ⟨rfl, this.symm ▸ rfl⟩
  | succ fuel ih =>
    by_cases hidx : idx < maxPages
    · have hemp : (pages idx).isEmpty = false := hne idx (Nat.le_refl idx) hidx
      have hlim : limitReached none (processLinks scrape none (pages idx)
          ⟨st.rows, st.seen, st.visited, st.fetched ++ [idx]⟩).rows.length = false := rfl
      rw [crawl_loop_succ_step _ _ _ _ _ _ _ hidx hemp hlim]
      exact ih (idx + 1) _ (by omega) hidx
        (fun p h1 h2 => hne p (Nat.le_of_succ_le h1) h2)
    · have : idx = maxPages := by omega
      rw [crawl_loop_succ_stop _ _ _ _ _ _ _ hidx]
      exact ⟨rfl, this⟩


lemma crawl_sim (pages : Nat → List String) (scrape : String → Option Row)
    (L : Nat) (maxPages : Nat) (fuel idx : Nat) (st : CrawlState)
    (hall : ∀ u, (scrape u).isSome) (h0 : st.rows.length < L) :
    ((crawl_loop pages scrape none maxPages fuel idx st).1.rows.length ≤ L →
      (crawl_loop pages scrape (some L) maxPages fuel idx st).1.rows =
        (crawl_loop pages scrape none maxPages fuel idx st).1.rows ∧
      (crawl_loop pages scrape (some L) maxPages fuel idx st).1.visited =
        (crawl_loop pages scrape none maxPages fuel idx st).1.visited) ∧
    (L < (crawl_loop pages scrape none maxPages fuel idx st).1.rows.length →
      (crawl_loop pages scrape (some L) maxPages fuel idx st).1.rows.length = L) := by
  induction fuel generalizing idx st with
  | zero =>
    rw [crawl_loop_zero, crawl_loop_zero]
    refine ⟨fun _ => ⟨rfl, rfl⟩, fun h => ?_⟩
    dsimp only at h
    omega
  | succ fuel ih =>
    by_cases hidx : idx < maxPages
    · cases hemp : (pages idx).isEmpty with
      | true =>
        rw [crawl_loop_succ_empty _ _ _ _ _ _ _ hidx hemp,
          crawl_loop_succ_empty _ _ _ _ _ _ _ hidx hemp]
        refine ⟨fun _ => ⟨rfl, rfl⟩, fun h => ?_⟩
        dsimp only at h
        omega
      | false =>
        have h0f : (⟨st.rows, st.seen, st.visited, st.fetched ++ [idx]⟩ :
            CrawlState).rows.length < L := h0
        have hsim := processLinks_sim scrape L (pages idx)
          ⟨st.rows, st.seen, st.visited, st.fetched ++ [idx]⟩ hall h0f
        have hlimN : limitReached none (processLinks scrape none (pages idx)
            ⟨st.rows, st.seen, st.visited, st.fetched ++ [idx]⟩).rows.length = false := rfl
        by_cases hcase : L < (processLinks scrape none (pages idx)
            ⟨st.rows, st.seen, st.visited, st.fetched ++ [idx]⟩).rows.length
        · have hLrows := hsim.2 hcase
          have hL0 : L ≠ 0 := by omega
          have hlimL : limitReached (some L) (processLinks scrape (some L) (pages idx)
              ⟨st.rows, st.seen, st.visited, st.fetched ++ [idx]⟩).rows.length = true := by
            rw [hLrows]
            exact limitReached_some_true _ _ hL0 (Nat.le_refl L)
          rw [crawl_loop_succ_limited _ _ _ _ _ _ _ hidx hemp hlimL,
            crawl_loop_succ_step _ _ _ _ _ _ _ hidx hemp hlimN]
          constructor
          · intro hle
            obtain ⟨d, hd⟩ := crawl_rows_append pages scrape none maxPages fuel (idx + 1)
              (processLinks scrape none (pages idx)
                ⟨st.rows, st.seen, st.visited, st.fetched ++ [idx]⟩)
            rw [hd] at hle
            simp only [List.length_append] at hle
            omega
          · intro _
            exact hLrows
        · have hle : (processLinks scrape none (pages idx)
              ⟨st.rows, st.seen, st.visited, st.fetched ++ [idx]⟩).rows.length ≤ L := by
            omega
          have hpLeq := hsim.1 hle
          by_cases heq : (processLinks scrape none (pages idx)
              ⟨st.rows, st.seen, st.visited, st.fetched ++ [idx]⟩).rows.length = L
          · have hL0 : L ≠ 0 := by omega
            have hlimL : limitReached (some L) (processLinks scrape (some L) (pages idx)
                ⟨st.rows, st.seen, st.visited, st.fetched ++ [idx]⟩).rows.length = true := by
              rw [hpLeq, heq]
              exact limitReached_some_true _ _ hL0 (Nat.le_refl L)
            rw [crawl_loop_succ_limited _ _ _ _ _ _ _ hidx hemp hlimL,
              crawl_loop_succ_step _ _ _ _ _ _ _ hidx hemp hlimN]
            constructor
            · intro hfle
              obtain ⟨d, hd⟩ := crawl_rows_append pages scrape none maxPages fuel (idx + 1)
                (processLinks scrape none (pages idx)
                  ⟨st.rows, st.seen, st.visited, st.fetched ++ [idx]⟩)
              have hdlen : d.length = 0 := by
                rw [hd] at hfle
                simp only [List.length_append] at hfle
                omega
              have hdeq : d = [] := List.length_eq_zero.mp hdlen
              rw [hdeq, List.append_nil] at hd
              obtain ⟨d2, hd2⟩ := crawl_visited_append pages scrape none maxPages fuel (idx + 1)
                (processLinks scrape none (pages idx)
                  ⟨st.rows, st.seen, st.visited, st.fetched ++ [idx]⟩)
              have hdelta := crawl_delta pages scrape none maxPages fuel (idx + 1)
                (processLinks scrape none (pages idx)
                  ⟨st.rows, st.seen, st.visited, st.fetched ++ [idx]⟩) hall
              have hd2len : d2.length = 0 := by
                rw [hd2] at hdelta
                rw [hd] at hdelta
                simp only [List.length_append] at hdelta
                omega
              have hd2eq : d2 = [] := List.length_eq_zero.mp hd2len
              rw [hd2eq, List.append_nil] at hd2
              exact ⟨by rw [hpLeq, hd], by rw [hpLeq, hd2]⟩
            · intro hgt
              rw [hpLeq]
              exact heq
          · have hlt : (processLinks scrape none (pages idx)
                ⟨st.rows, st.seen, st.visited, st.fetched ++ [idx]⟩).rows.length < L :=
              Nat.lt_of_le_of_ne hle heq
            have hlimL : limitReached (some L) (processLinks scrape (some L) (pages idx)
                ⟨st.rows, st.seen, st.visited, st.fetched ++ [idx]⟩).rows.length = false := by
              rw [hpLeq]
              exact limitReached_some_false _ _ hlt
            rw [crawl_loop_succ_step _ _ _ _ _ _ _ hidx hemp hlimL,
              crawl_loop_succ_step _ _ _ _ _ _ _ hidx hemp hlimN]
            rw [hpLeq]
            exact ih (idx + 1) _ hlt
    · rw [crawl_loop_succ_stop _ _ _ _ _ _ _ hidx,
        crawl_loop_succ_stop _ _ _ _ _ _ _ hidx]
      refine ⟨fun _ => ⟨rfl, rfl⟩, fun h => ?_⟩
      dsimp only at h
      omega


lemma runState_eq (pages : Nat → List String) (scrape : String → Option Row)
    (limit : Option Nat) (pageStart maxPages : Nat) :
    runState pages scrape limit pageStart maxPages =
      (crawl_loop pages scrape limit maxPages (maxPages - pageStart)
        pageStart initState).1 := rfl

lemma length_filterMap_all_some (scrape : String → Option Row) (l : List String)
    (hall : ∀ u, (scrape u).isSome) :
    (l.filterMap scrape).length = l.length := by
  induction l with
  | nil => rfl
  | cons a l ih =>
    cases hsa : scrape a with
    | none => exact absurd (hall a) (by simp [hsa])
    | some row => simp [List.filterMap_cons, hsa, ih]

/-- Claim C4: over a whole run, every detail URL scraped is recorded in
the seen set, and the visit trace is duplicate-free: the detail scraper
is attempted at most once per URL, no matter how many listing pages
offer the URL and whether or not the attempt succeeds.  (In
`processLinks` the seen-insertion is sequenced before the scrape call,
exactly as `seen.add(link)` precedes `scrape_detail` in the source.) -/
theorem claim_C4 (pages : Nat → List String) (scrape : String → Option Row)
    (limit : Option Nat) (pageStart maxPages : Nat) :
    (runState pages scrape limit pageStart maxPages).visited.Nodup ∧
    ∀ u ∈ (runState pages scrape limit pageStart maxPages).visited,
      u ∈ (runState pages scrape limit pageStart maxPages).seen :=
  crawl_nodup pages scrape limit maxPages (maxPages - pageStart) pageStart initState
    List.nodup_nil (fun u hu => absurd hu (List.not_mem_nil u))

/-- Claim C5: the rows of a run are exactly the successful scrapes of
the visited URLs, in visit order; hence when the scrape of `X` raises
(`scrape X = none`) while a later-visited `Y` succeeds with record
`rY`, the output contains `rY`, contains nothing derived from `X`, and
the run still returns normally (the run function is total and its
output is characterized below). -/
theorem claim_C5 (pages : Nat → List String) (scrape : String → Option Row)
    (limit : Option Nat) (pageStart maxPages : Nat) (X Y : String) (rY : Row)
    (hX : scrape X = none)
    (hXv : X ∈ (runState pages scrape limit pageStart maxPages).visited)
    (hYv : Y ∈ (runState pages scrape limit pageStart maxPages).visited)
    (hrY : scrape Y = some rY) :
    rY ∈ (runState pages scrape limit pageStart maxPages).rows ∧
    ∀ r ∈ (runState pages scrape limit pageStart maxPages).rows,
      ∃ u, u ∈ (runState pages scrape limit pageStart maxPages).visited ∧
        u ≠ X ∧ scrape u = some r := by
  have hsync : (runState pages scrape limit pageStart maxPages).rows =
      (runState pages scrape limit pageStart maxPages).visited.filterMap scrape :=
    crawl_sync pages scrape limit maxPages (maxPages - pageStart) pageStart
      initState rfl
  constructor
  · rw [hsync]
    exact List.mem_filterMap.mpr ⟨Y, hYv, hrY⟩
  · intro r hr
    rw [hsync] at hr
    obtain ⟨u, hu, hsu⟩ := List.mem_filterMap.mp hr
    refine ⟨u, hu, ?_, hsu⟩
    intro he
    rw [he, hX] at hsu
    cases hsu

/-- Claim C5 witness: on the two-link page `[x, y]` where scraping `x`
raises and `y` succeeds, the output contains the record for `y` and
every record comes from a visited URL other than `x`. -/
theorem claim_C5_witness :
    (⟨[("u", "y")]⟩ : Row) ∈ (runState Fx.pagesXY Fx.scrapeFail none 0 10).rows :=
  (claim_C5 Fx.pagesXY Fx.scrapeFail none 0 10 "x" "y" ⟨[("u", "y")]⟩
    (by decide) (by decide) (by decide) (by decide)).1

/-- Claim C6: whenever a fetched listing page yields zero links, the run
stops with the `exhausted` reason and no listing page with a higher
index is ever fetched (the zero-link page is the maximum of the fetch
trace). -/
theorem claim_C6 (pages : Nat → List String) (scrape : String → Option Row)
    (limit : Option Nat) (pageStart maxPages : Nat) (p : Nat)
    (hp : pages p = [])
    (hin : p ∈ (runState pages scrape limit pageStart maxPages).fetched) :
    runReason pages scrape limit pageStart maxPages = .exhausted ∧
    ∀ q ∈ (runState pages scrape limit pageStart maxPages).fetched, q ≤ p := by
  have h := crawl_empty_stop pages scrape limit maxPages (maxPages - pageStart)
    pageStart initState p hp (List.not_mem_nil p) hin
  exact ⟨h.1, fun q hq => h.2 q hq (List.not_mem_nil q)⟩

/-- Claim C6 witness: on the fixture run page 1 is fetched, yields zero
links, the reason is `exhausted` and every fetched index is at most 1. -/
theorem claim_C6_witness :
    runReason Fx.pages Fx.scrape none 0 10 = .exhausted ∧
    ∀ q ∈ (runState Fx.pages Fx.scrape none 0 10).fetched, q ≤ 1 :=
  claim_C6 Fx.pages Fx.scrape none 0 10 1 (by decide) (by decide)

/-- Claim C7, amended: provided the configured start index does not
exceed the configured maximum page count, the fetch trace of page
indices is strictly increasing (the cursor never decreases), every
fetched index lies in `[pageStart, maxPages)`, the final cursor stays
within `[pageStart, maxPages]`, and — when no item limit is set and
every page in range yields links — the run ends `capped`, not
`exhausted`. -/
theorem claim_C7 (pages : Nat → List String) (scrape : String → Option Row)
    (limit : Option Nat) (pageStart maxPages : Nat)
    (hstart : pageStart ≤ maxPages) :
    (runState pages scrape limit pageStart maxPages).fetched.Pairwise (· < ·) ∧
    (∀ p ∈ (runState pages scrape limit pageStart maxPages).fetched,
      pageStart ≤ p ∧ p < maxPages) ∧
    pageStart ≤ runCursor pages scrape limit pageStart maxPages ∧
    runCursor pages scrape limit pageStart maxPages ≤ maxPages ∧
    (limit = none → (∀ p, pageStart ≤ p → p < maxPages → pages p ≠ []) →
      runReason pages scrape limit pageStart maxPages = .capped) := by
  obtain ⟨n, hn, hb⟩ := crawl_fetched_range pages scrape limit maxPages
    (maxPages - pageStart) pageStart initState
  have hfet : (runState pages scrape limit pageStart maxPages).fetched =
      List.range' pageStart n := by
    rw [runState_eq, hn]
    rfl
  refine ⟨?_, ?_, ?_, ?_, ?_⟩
  · rw [hfet]
    exact List.pairwise_lt_range' pageStart n
  · intro p hp
    rw [hfet] at hp
    have := List.mem_range'_1.mp hp
    rcases hb with hb | hb
    · rw [hb] at hp
      simp at hp
    · omega
  · exact crawl_cursor_ge pages scrape limit maxPages (maxPages - pageStart)
      pageStart initState
  · exact crawl_cursor_le pages scrape limit maxPages (maxPages - pageStart)
      pageStart initState hstart
  · intro hnone hne
    subst hnone
    have hne2 : ∀ p, pageStart ≤ p → p < maxPages → (pages p).isEmpty = false := by
      intro p h1 h2
      cases hl : pages p with
      | nil => exact absurd hl (hne p h1 h2)
      | cons a l => rfl
    exact (crawl_capped pages scrape maxPages (maxPages - pageStart) pageStart
      initState (Nat.le_refl _) hstart hne2).1

/-- Claim C7 counterexample: with a configured start index of 5 and a
maximum page count of 3 the loop body never runs, so the cursor stays
at its initial value 5, which exceeds the configured maximum — the code
never clamps the cursor to the maximum. -/
theorem claim_C7_counterexample :
    runCursor Fx.pages Fx.scrape none 5 3 = 5 ∧ ¬ (5 : Nat) ≤ 3 :=
  ⟨by decide, by decide⟩

/-- Claim C7 witness: with start 0 and maximum 10 the final cursor is at
most 10. -/
theorem claim_C7_witness :
    runCursor Fx.pages Fx.scrape none 0 10 ≤ 10 :=
  (claim_C7 Fx.pages Fx.scrape none 0 10 (by decide)).2.2.2.1

/-- Claim C2, amended: for a positive configured limit `L`, when every
detail scrape succeeds and the unrestricted traversal would visit more
than `L` distinct detail links, the limited run produces exactly `L`
records and attempts exactly `L` detail fetches — it stops before
visiting the `(L+1)`-th new link, because the limit is checked against
the accumulated record count before each detail fetch.  (A configured
limit of `0` is treated as "no limit" by the truthiness guard; see
claim C10.) -/
theorem claim_C2 (pages : Nat → List String) (scrape : String → Option Row)
    (L pageStart maxPages : Nat)
    (hall : ∀ u, (scrape u).isSome) (hL : 1 ≤ L)
    (hmore : L < (runState pages scrape none pageStart maxPages).visited.length) :
    (runState pages scrape (some L) pageStart maxPages).rows.length = L ∧
    (runState pages scrape (some L) pageStart maxPages).visited.length = L := by
  have hsyncN : (runState pages scrape none pageStart maxPages).rows =
      (runState pages scrape none pageStart maxPages).visited.filterMap scrape :=
    crawl_sync pages scrape none maxPages (maxPages - pageStart) pageStart
      initState rfl
  have hrowsN : (runState pages scrape none pageStart maxPages).rows.length =
      (runState pages scrape none pageStart maxPages).visited.length := by
    rw [hsyncN, length_filterMap_all_some scrape _ hall]
  have hmoreR : L < (runState pages scrape none pageStart maxPages).rows.length := by
    omega
  have h0 : (initState : CrawlState).rows.length < L := by
    simpa [initState] using hL
  have hsim := (crawl_sim pages scrape L maxPages (maxPages - pageStart) pageStart
    initState hall h0).2 hmoreR
  have hsyncL : (runState pages scrape (some L) pageStart maxPages).rows =
      (runState pages scrape (some L) pageStart maxPages).visited.filterMap scrape :=
    crawl_sync pages scrape (some L) maxPages (maxPages - pageStart) pageStart
      initState rfl
  have hrowsL : (runState pages scrape (some L) pageStart maxPages).rows.length =
      (runState pages scrape (some L) pageStart maxPages).visited.length := by
    rw [hsyncL, length_filterMap_all_some scrape _ hall]
  refine ⟨hsim, by rw [← hrowsL]; exact hsim⟩

/-- Claim C2 counterexample: with the configured limit 0 and three
available links, the claim demands zero records and no visit of the
first link, but the truthiness guard `if limit and ...` never fires for
limit 0: the run visits all three links and produces three records. -/
theorem claim_C2_counterexample :
    (runState Fx.pages Fx.scrape (some 0) 0 10).rows.length = 3 ∧
    (runState Fx.pages Fx.scrape (some 0) 0 10).visited.length = 3 ∧
    (3 : Nat) ≠ 0 :=
  ⟨by decide, by decide, by decide⟩

/-- Claim C2 witness: limit 2 against three available links yields
exactly 2 records and 2 visits. -/
theorem claim_C2_witness :
    (runState Fx.pages Fx.scrape (some 2) 0 10).rows.length = 2 ∧
    (runState Fx.pages Fx.scrape (some 2) 0 10).visited.length = 2 :=
  claim_C2 Fx.pages Fx.scrape 2 0 10 (fun _ => rfl) (by decide) (by decide)

lemma processLinks_limit_congr (scrape : String → Option Row)
    (limit1 limit2 : Option Nat)
    (h : ∀ n, limitReached limit1 n = limitReached limit2 n)
    (links : List String) (st : CrawlState) :
    processLinks scrape limit1 links st = processLinks scrape limit2 links st := by
  induction links generalizing st with
  | nil => rfl
  | cons link rest ih =>
    cases hlim : limitReached limit1 st.rows.length with
    | true =>
      rw [processLinks_cons_stop _ _ _ _ _ hlim,
        processLinks_cons_stop _ _ _ _ _ ((h st.rows.length).symm.trans hlim)]
    | false =>
      have hlim2 : limitReached limit2 st.rows.length = false :=
        (h st.rows.length).symm.trans hlim
      by_cases hmem : link ∈ st.seen
      · rw [processLinks_cons_seen _ _ _ _ _ hlim hmem,
          processLinks_cons_seen _ _ _ _ _ hlim2 hmem]
        exact ih st
      · cases hscr : scrape link with
        | some row =>
          rw [processLinks_cons_some _ _ _ _ _ _ hlim hmem hscr,
            processLinks_cons_some _ _ _ _ _ _ hlim2 hmem hscr]
          exact ih _
        | none =>
          rw [processLinks_cons_none _ _ _ _ _ hlim hmem hscr,
            processLinks_cons_none _ _ _ _ _ hlim2 hmem hscr]
          exact ih _

lemma crawl_limit_congr (pages : Nat → List String) (scrape : String → Option Row)
    (limit1 limit2 : Option Nat) (maxPages : Nat)
    (h : ∀ n, limitReached limit1 n = limitReached limit2 n)
    (fuel idx : Nat) (st : CrawlState) :
    crawl_loop pages scrape limit1 maxPages fuel idx st =
      crawl_loop pages scrape limit2 maxPages fuel idx st := by
  induction fuel generalizing idx st with
  | zero => rfl
  | succ fuel ih =>
    by_cases hidx : idx < maxPages
    · cases hemp : (pages idx).isEmpty with
      | true =>
        rw [crawl_loop_succ_empty _ _ _ _ _ _ _ hidx hemp,
          crawl_loop_succ_empty _ _ _ _ _ _ _ hidx hemp]
      | false =>
        have hpl := processLinks_limit_congr scrape limit1 limit2 h (pages idx)
          ⟨st.rows, st.seen, st.visited, st.fetched ++ [idx]⟩
        cases hlim : limitReached limit1 (processLinks scrape limit1 (pages idx)
            ⟨st.rows, st.seen, st.visited, st.fetched ++ [idx]⟩).rows.length with
        | true =>
          have hlim2 : limitReached limit2 (processLinks scrape limit2 (pages idx)
              ⟨st.rows, st.seen, st.visited, st.fetched ++ [idx]⟩).rows.length = true := by
            rw [← hpl, ← h _]
            exact hlim
          rw [crawl_loop_succ_limited _ _ _ _ _ _ _ hidx hemp hlim,
            crawl_loop_succ_limited _ _ _ _ _ _ _ hidx hemp hlim2, hpl]
        | false =>
          have hlim2 : limitReached limit2 (processLinks scrape limit2 (pages idx)
              ⟨st.rows, st.seen, st.visited, st.fetched ++ [idx]⟩).rows.length = false := by
            rw [← hpl, ← h _]
            exact hlim
          rw [crawl_loop_succ_step _ _ _ _ _ _ _ hidx hemp hlim,
            crawl_loop_succ_step _ _ _ _ _ _ _ hidx hemp hlim2, hpl]
          exact ih _ _
    · rw [crawl_loop_succ_stop _ _ _ _ _ _ _ hidx,
        crawl_loop_succ_stop _ _ _ _ _ _ _ hidx]

/-- Claim C10: a configured item limit of 0 behaves exactly like no
limit at all — the guard `if limit and len(rows) >= limit` tests the
truthiness of the limit, and 0 is falsy — so the two runs coincide in
full (records, seen set, visit trace, fetch trace, final cursor and
stop reason). -/
theorem claim_C10 (pages : Nat → List String) (scrape : String → Option Row)
    (pageStart maxPages : Nat) :
    scrape_all pages scrape (some 0) pageStart maxPages =
      scrape_all pages scrape none pageStart maxPages :=
  crawl_limit_congr pages scrape (some 0) none maxPages (fun _ => rfl)
    (maxPages - pageStart) pageStart initState

end Scraper
